import Mathlib

/-!
Shallow embedding of the DatLibrarian class from src/index.js.

The librarian keeps a mutable map from archive keys to archive handles
(the JS object `this.dats`), a working directory on disk, and emits
events. External collaborators (the link resolver `dat-link-resolve`,
the archive backend `Dat`/`dat-node`, and `rimraf`) are modelled as an
environment of oracles. Each public operation is translated
statement-by-statement; besides its result and the post-state it
returns the ordered list of externally visible actions it performed,
so that ordering claims (close before evict before delete, join before
emit, and so on) can be read off the trace.
-/

namespace DatLibrarian

/-- Externally visible steps of the librarian, in program order.
Traces of these actions record what each operation did. -/
inductive Action where
| addCall (link : String)
| openArchive (key : String)
| store (key : String)
| joinNetwork (key : String)
| emitAdd (key : String)
| closeHandle (key : String)
| closeFailed (key : String)
| evict (key : String)
| deleteDir (key : String)
| emitRemove (link : String)
deriving DecidableEq, Repr

/-- Environment of external collaborators: the link resolver
(dat-link-resolve), the archive backend (Dat), the close callback of a
handle, and rimraf on a directory named by a key. `none` from
`closeResult` or `rimrafResult` means success; `some e` is the error
passed to the callback. -/
structure Env (H : Type) where
  resolve : String → Except String String
  openArchive : String → Except String H
  closeResult : H → Option String
  rimrafResult : String → Option String

/-- Librarian state: the key-to-handle cache `this.dats` (an assoc
list with unique keys, mirroring a JS object), and the names of the
immediate children of the working directory. -/
structure LibState (H : Type) where
  dats : List (String × H)
  fsDirs : List String
deriving DecidableEq, Repr

variable {H : Type}

/-- Lookup in the cache, mirroring `key in this.dats` / `this.dats[key]`. -/
def lookupKey (dats : List (String × H)) (k : String) : Option H :=
  match dats with
  | [] => none
  | (k', h) :: rest => if k' = k then some h else lookupKey rest k

/-- Deletion from the cache, mirroring `delete this.dats[key]`. -/
def eraseKey (dats : List (String × H)) (k : String) : List (String × H) :=
  dats.filter (fun p => p.1 != k)

/-- Record a directory under the working directory, if not present. -/
def insertDir (dirs : List String) (k : String) : List String :=
  if k ∈ dirs then dirs else dirs ++ [k]

/-- Embeds `list()`: `Object.keys(this.dats)`. -/
def list (s : LibState H) : List String :=
  s.dats.map Prod.fst

/-- Embeds the getter `keys`: the source returns `this.list()`. -/
def keys (s : LibState H) : List String :=
  list s

/-- Embeds `get(link)`: first `link in this.dats`, else resolve the
link and check the cache under the resolved key, else the error
message "not found". Read-only. -/
def get (env : Env H) (s : LibState H) (link : String) : Except String H :=
  match lookupKey s.dats link with
  | some dat => Except.ok dat
  | none =>
    match env.resolve link with
    | Except.error e => Except.error e
    | Except.ok key =>
      match lookupKey s.dats key with
      | some dat => Except.ok dat
      | none => Except.error "not found"

/-- Embeds `add(link)`: resolve the link; on a cache hit return the
cached handle; otherwise open the archive via the backend, store the
handle in the cache, call joinNetwork, then emit the add event. On a
resolver or backend error the error propagates and the state is
unchanged. -/
def add (env : Env H) (s : LibState H) (link : String) :
    Except String H × LibState H × List Action :=
  match env.resolve link with
  | Except.error e => (Except.error e, s, [Action.addCall link])
  | Except.ok key =>
    match lookupKey s.dats key with
    | some dat => (Except.ok dat, s, [Action.addCall link])
    | none =>
      match env.openArchive key with
      | Except.error e =>
        (Except.error e, s, [Action.addCall link, Action.openArchive key])
      | Except.ok dat =>
        (Except.ok dat,
         { s with dats := s.dats ++ [(key, dat)],
                  fsDirs := insertDir s.fsDirs key },
         [Action.addCall link, Action.openArchive key, Action.store key,
          Action.joinNetwork key, Action.emitAdd key])

/-- Embeds `remove(link)`: resolve the link; if the key is not cached
fail with "not found"; otherwise close the handle (a close error
rejects before any mutation), then evict the key from the cache, then
rimraf the directory (a rimraf error rejects after eviction), then
emit the remove event with the original link. -/
def remove (env : Env H) (s : LibState H) (link : String) :
    Except String Unit × LibState H × List Action :=
  match env.resolve link with
  | Except.error e => (Except.error e, s, [])
  | Except.ok key =>
    match lookupKey s.dats key with
    | none => (Except.error "not found", s, [])
    | some dat =>
      match env.closeResult dat with
      | some e => (Except.error e, s, [Action.closeFailed key])
      | none =>
        match env.rimrafResult key with
        | some e =>
          (Except.error e,
           { s with dats := eraseKey s.dats key },
           [Action.closeHandle key, Action.evict key])
        | none =>
          (Except.ok (),
           { s with dats := eraseKey s.dats key,
                    fsDirs := s.fsDirs.filter (fun d => d != key) },
           [Action.closeHandle key, Action.evict key, Action.deleteDir key,
            Action.emitRemove link])

/-- Loop of `close()`: `dat.close(resolve)` passes the promise
resolver as the callback, so an error handed to the callback still
resolves the promise and is discarded; the loop continues over every
cached handle. -/
def closeGo (env : Env H) (dats : List (String × H)) : List Action :=
  match dats with
  | [] => []
  | (k, h) :: rest =>
    match env.closeResult h with
    | some _ => Action.closeFailed k :: closeGo env rest
    | none => Action.closeHandle k :: closeGo env rest

/-- Embeds `close()`: closes every cached handle in turn, never
rejects, and leaves the cache and the disk untouched. -/
def close (env : Env H) (s : LibState H) :
    Except String Unit × LibState H × List Action :=
  (Except.ok (), s, closeGo env s.dats)

/-- Character class of the regex `[0-9a-f]` under the `i` flag. -/
def isHexDigit (c : Char) : Bool :=
  (decide ('0' ≤ c) && decide (c ≤ '9')) ||
  (decide ('a' ≤ c) && decide (c ≤ 'f')) ||
  (decide ('A' ≤ c) && decide (c ≤ 'F'))

/-- Embeds `DAT_KEY_REGEX.test(file)` for the regex
`^([0-9a-f]{64})` with the `i` flag: true exactly when the file name
has at least 64 characters and its first 64 characters are
case-insensitive hex digits. -/
def datKeyTest (s : String) : Bool :=
  decide (64 ≤ s.length) && (s.toList.take 64).all isHexDigit

/-- Loop of `load()`: `for (const key of keys) await this.add(key)`;
the first failing add aborts the rest. -/
def loadGo (env : Env H) (s : LibState H) (names : List String) :
    Except String Unit × LibState H × List Action :=
  match names with
  | [] => (Except.ok (), s, [])
  | n :: rest =>
    match add env s n with
    | (Except.error e, s1, tr1) => (Except.error e, s1, tr1)
    | (Except.ok _, s1, tr1) =>
      match loadGo env s1 rest with
      | (r2, s2, tr2) => (r2, s2, tr1 ++ tr2)

/-- Embeds `load()`: read the working directory, keep the entries
matching DAT_KEY_REGEX, and add each matching entry name as a link,
sequentially. -/
def load (env : Env H) (s : LibState H) :
    Except String Unit × LibState H × List Action :=
  loadGo env s (s.fsDirs.filter datKeyTest)

/-! Helper definitions for stating and proving the claims. -/

/-- Hexadecimal characters, in both cases: the alphabet the spec
means by a case-insensitive hex digit. -/
def hexChars : List Char :=
  ['9', '8', '7', '6', '5', '4', '3', '2', '1', '0',
   'f', 'e', 'd', 'c', 'b', 'a', 'F', 'E', 'D', 'C', 'B', 'A']

/-- Extract the link of an addCall action, if any. -/
def addCallOf (a : Action) : Option String :=
  match a with
  | Action.addCall l => some l
  | _ => none

/-- Trace of one successful fresh add of the link n. -/
def addTrace (n : String) : List Action :=
  [Action.addCall n, Action.openArchive n, Action.store n,
   Action.joinNetwork n, Action.emitAdd n]

/-- Trace of a load that freshly adds each of the given names. -/
def loadTrace (names : List String) : List Action :=
  match names with
  | [] => []
  | n :: rest => addTrace n ++ loadTrace rest

/-- Strict precedence of action a before action b in a trace. -/
def precedesIn (tr : List Action) (a b : Action) : Prop :=
  ∃ i : Fin tr.length, ∃ j : Fin tr.length,
    i.val < j.val ∧ tr.get i = a ∧ tr.get j = b

instance (tr : List Action) (a b : Action) : Decidable (precedesIn tr a b) := by
  unfold precedesIn
  infer_instance

/-! Helper lemmas about the cache representation. -/

theorem precedesIn_head (a b : Action) (tr : List Action) (hb : b ∈ tr) :
    precedesIn (a :: tr) a b := by
  rcases List.mem_iff_get.mp hb with ⟨i, hi⟩
  exact ⟨⟨0, Nat.succ_pos _⟩, ⟨i.val + 1, Nat.succ_lt_succ i.isLt⟩,
    Nat.succ_pos _, rfl, hi⟩

theorem precedesIn_cons (c a b : Action) (tr : List Action)
    (hp : precedesIn tr a b) : precedesIn (c :: tr) a b := by
  obtain ⟨i, j, hij, ha, hb⟩ := hp
  exact ⟨⟨i.val + 1, Nat.succ_lt_succ i.isLt⟩, ⟨j.val + 1, Nat.succ_lt_succ j.isLt⟩,
    Nat.succ_lt_succ hij, ha, hb⟩

theorem lookupKey_eq_none_iff (dats : List (String × H)) (k : String) :
    lookupKey dats k = none ↔ k ∉ dats.map Prod.fst := by
  induction dats with
  | nil => simp [lookupKey]
  | cons p rest ih =>
    obtain ⟨k', h⟩ := p
    by_cases hk : k' = k
    · subst hk
      simp [lookupKey]
    · simp only [lookupKey, if_neg hk, List.map_cons, List.mem_cons, ih]
      constructor
      · intro hnm hor
        rcases hor with hor | hor
        · exact hk hor.symm
        · exact hnm hor
      · intro hnm hm
        exact hnm (Or.inr hm)

theorem lookupKey_append_none (xs ys : List (String × H)) (k : String)
    (hx : lookupKey xs k = none) :
    lookupKey (xs ++ ys) k = lookupKey ys k := by
  induction xs with
  | nil => simp
  | cons p rest ih =>
    obtain ⟨k', h⟩ := p
    by_cases hk : k' = k
    · subst hk
      simp [lookupKey] at hx
    · simp only [lookupKey, if_neg hk] at hx
      simpa only [List.cons_append, lookupKey, if_neg hk] using ih hx

theorem lookupKey_mem_of_some (dats : List (String × H)) (k : String) (h : H)
    (hl : lookupKey dats k = some h) : k ∈ dats.map Prod.fst := by
  by_contra hn
  have hnone := (lookupKey_eq_none_iff dats k).mpr hn
  rw [hl] at hnone
  exact Option.noConfusion hnone

theorem eraseKey_not_mem (dats : List (String × H)) (k : String) :
    k ∉ (eraseKey dats k).map Prod.fst := by
  intro hm
  rcases List.mem_map.mp hm with ⟨p, hp, hfst⟩
  rcases List.mem_filter.mp hp with ⟨_, hne⟩
  rw [bne_iff_ne] at hne
  exact hne hfst

theorem filter_ne_not_mem (l : List String) (k : String) :
    k ∉ l.filter (fun d => d != k) := by
  intro hm
  rcases List.mem_filter.mp hm with ⟨_, hne⟩
  rw [bne_iff_ne] at hne
  exact hne rfl

/-! Characterization of the regex character class. -/

theorem char_eq_of_toNat_eq (c d : Char) (h : c.toNat = d.toNat) : c = d := by
  apply Char.le_antisymm
  · exact h.le
  · exact h.ge

theorem char_eq_iff_toNat (c d : Char) : c = d ↔ c.toNat = d.toNat :=
  ⟨fun h => by rw [h], char_eq_of_toNat_eq c d⟩

theorem isHexDigit_iff_mem (c : Char) : isHexDigit c = true ↔ c ∈ hexChars := by
  constructor
  · intro hx
    simp only [isHexDigit, Bool.or_eq_true, Bool.and_eq_true, decide_eq_true_eq] at hx
    simp only [hexChars, List.mem_cons, List.not_mem_nil, or_false, char_eq_iff_toNat]
    show c.toNat = 57 ∨ c.toNat = 56 ∨ c.toNat = 55 ∨ c.toNat = 54 ∨ c.toNat = 53 ∨
      c.toNat = 52 ∨ c.toNat = 51 ∨ c.toNat = 50 ∨ c.toNat = 49 ∨ c.toNat = 48 ∨
      c.toNat = 102 ∨ c.toNat = 101 ∨ c.toNat = 100 ∨ c.toNat = 99 ∨ c.toNat = 98 ∨
      c.toNat = 97 ∨ c.toNat = 70 ∨ c.toNat = 69 ∨ c.toNat = 68 ∨ c.toNat = 67 ∨
      c.toNat = 66 ∨ c.toNat = 65
    rcases hx with (⟨h1, h2⟩ | ⟨h1, h2⟩) | ⟨h1, h2⟩
    · have a1 : 48 ≤ c.toNat := h1
      have a2 : c.toNat ≤ 57 := h2
      omega
    · have a1 : 97 ≤ c.toNat := h1
      have a2 : c.toNat ≤ 102 := h2
      omega
    · have a1 : 65 ≤ c.toNat := h1
      have a2 : c.toNat ≤ 70 := h2
      omega
  · intro hm
    fin_cases hm <;> decide

theorem datKeyTest_iff (str : String) :
    datKeyTest str = true ↔
      64 ≤ str.length ∧ ∀ c ∈ str.toList.take 64, c ∈ hexChars := by
  simp only [datKeyTest, Bool.and_eq_true, decide_eq_true_eq, List.all_eq_true,
    isHexDigit_iff_mem]

/-! Behavior of the load loop on fresh, self-resolving names. -/

theorem loadGo_spec (env : Env H) (f : String → H) :
    ∀ (names : List String) (s : LibState H),
      (∀ n ∈ names, env.resolve n = Except.ok n) →
      (∀ n ∈ names, env.openArchive n = Except.ok (f n)) →
      names.Nodup →
      (∀ n ∈ names, lookupKey s.dats n = none) →
      (∀ n ∈ names, n ∈ s.fsDirs) →
      loadGo env s names =
        (Except.ok (),
         { s with dats := s.dats ++ names.map (fun n => (n, f n)) },
         loadTrace names) := by
  intro names
  induction names with
  | nil =>
    intro s _ _ _ _ _
    simp [loadGo, loadTrace]
  | cons n rest ih =>
    intro s hres hopen hnd hmiss hdirs
    have hr : env.resolve n = Except.ok n := hres n (by simp)
    have ho : env.openArchive n = Except.ok (f n) := hopen n (by simp)
    have hm : lookupKey s.dats n = none := hmiss n (by simp)
    have hd : n ∈ s.fsDirs := hdirs n (by simp)
    have hnotin : n ∉ rest := (List.nodup_cons.mp hnd).1
    have hadd : add env s n =
        (Except.ok (f n),
         { s with dats := s.dats ++ [(n, f n)] },
         addTrace n) := by
      simp [add, hr, hm, ho, insertDir, hd, addTrace]
    have hstep := ih { s with dats := s.dats ++ [(n, f n)] }
      (fun m hmem => hres m (List.mem_cons_of_mem n hmem))
      (fun m hmem => hopen m (List.mem_cons_of_mem n hmem))
      ((List.nodup_cons.mp hnd).2)
      (fun m hmem => by
        have hbase : lookupKey s.dats m = none := hmiss m (List.mem_cons_of_mem n hmem)
        have hne : n ≠ m := fun hEq => hnotin (hEq ▸ hmem)
        rw [lookupKey_append_none s.dats [(n, f n)] m hbase]
        simp [lookupKey, hne])
      (fun m hmem => hdirs m (List.mem_cons_of_mem n hmem))
    simp only [loadGo, hadd, hstep, loadTrace]
    simp [List.append_assoc]

/-! Concrete fixtures used by witnesses and counterexamples. Handles
are natural numbers; the sample key is the one in the source
documentation. -/

/-- The archive key appearing in the source documentation. -/
def K0 : String := "c33bc8d7c32a6e905905efdbf21efea9ff23b00d1c3ee9aea80092eaba6c4957"

/-- A second, distinct archive key. -/
def K1 : String := "aa2bc8d7c32a6e905905efdbf21efea9ff23b00d1c3ee9aea80092eaba6c4957"

/-- Environment whose resolver fails on every link. -/
def envResolveFail : Env Nat where
  resolve := fun _ => Except.error "resolution failed"
  openArchive := fun _ => Except.ok 7
  closeResult := fun _ => none
  rimrafResult := fun _ => none

/-- Environment whose backend open fails; the sample links resolve to K0. -/
def envOpenFail : Env Nat where
  resolve := fun l =>
    if l = "garbados.hashbase.io" then Except.ok K0 else Except.error "bad link"
  openArchive := fun _ => Except.error "backend open failed"
  closeResult := fun _ => none
  rimrafResult := fun _ => none

/-- Well-behaved environment: two links and the key itself resolve to
K0, a third link resolves to the uncached key K1, opens succeed with
handle 7, close and rimraf succeed. -/
def envOk : Env Nat where
  resolve := fun l =>
    if l = "garbados.hashbase.io" then Except.ok K0
    else if l = "dat://garbados.hashbase.io" then Except.ok K0
    else if l = K0 then Except.ok K0
    else if l = "pfrazee.hashbase.io" then Except.ok K1
    else Except.error "bad link"
  openArchive := fun _ => Except.ok 7
  closeResult := fun _ => none
  rimrafResult := fun _ => none

/-- The empty librarian state. -/
def st0 : LibState Nat where
  dats := []
  fsDirs := []

/-- State holding one cached archive under K0 with its directory. -/
def st1 : LibState Nat where
  dats := [(K0, 7)]
  fsDirs := [K0]

/-! The claims. -/

/-- C9: for every cache state, the keys getter returns exactly the
same array of cached keys as list(); the source defines the getter as
an alias of list(). -/
theorem keys_getter_eq_list (s : LibState H) : keys s = list s := rfl

/-- C2: an add in which the resolver fails, or in which the backend
fails to open the archive, fails with that propagated error and
leaves the librarian state, in particular the key-to-handle cache,
unchanged. -/
theorem add_failure_no_cache_entry (env : Env H) (s : LibState H) (link : String) :
    (∀ e, env.resolve link = Except.error e →
      add env s link = (Except.error e, s, [Action.addCall link])) ∧
    (∀ key e, env.resolve link = Except.ok key →
      lookupKey s.dats key = none →
      env.openArchive key = Except.error e →
      add env s link =
        (Except.error e, s, [Action.addCall link, Action.openArchive key])) := by
  constructor
  · intro e he
    simp [add, he]
  · intro key e hk hm ho
    simp [add, hk, hm, ho]

/-- Witness for C2 at concrete inputs: a failing resolver and a
failing backend open both propagate and leave the state unchanged. -/
theorem add_failure_no_cache_entry_witness :
    add envResolveFail st0 "x" =
      (Except.error "resolution failed", st0, [Action.addCall "x"]) ∧
    add envOpenFail st0 "garbados.hashbase.io" =
      (Except.error "backend open failed", st0,
       [Action.addCall "garbados.hashbase.io", Action.openArchive K0]) :=
  ⟨(add_failure_no_cache_entry envResolveFail st0 "x").1 "resolution failed" rfl,
   (add_failure_no_cache_entry envOpenFail st0 "garbados.hashbase.io").2 K0
     "backend open failed" rfl rfl rfl⟩

/-- C1: when two add calls resolve to the same key, the second call
returns the very handle the first produced without changing the
state, the cache holds exactly one entry for the key, and the second
call performs no backend open. -/
theorem add_idempotent (env : Env H) (s : LibState H) (link1 link2 key : String)
    (h : H) (s1 : LibState H) (tr1 : List Action)
    (hnd : (list s).Nodup)
    (h1 : env.resolve link1 = Except.ok key)
    (h2 : env.resolve link2 = Except.ok key)
    (hadd : add env s link1 = (Except.ok h, s1, tr1)) :
    add env s1 link2 = (Except.ok h, s1, [Action.addCall link2]) ∧
    (list s1).count key = 1 ∧
    ∀ k, Action.openArchive k ∉ (add env s1 link2).2.2 := by
  simp only [add, h1] at hadd
  cases hl : lookupKey s.dats key with
  | some dat =>
    rw [hl] at hadd
    simp only [Prod.mk.injEq, Except.ok.injEq] at hadd
    obtain ⟨hdat, hs, _⟩ := hadd
    have hlook : lookupKey s1.dats key = some h := by
      rw [← hs, ← hdat]
      exact hl
    have hmain : add env s1 link2 = (Except.ok h, s1, [Action.addCall link2]) := by
      simp [add, h2, hlook]
    refine ⟨hmain, ?_, ?_⟩
    · have hmem : key ∈ list s1 := lookupKey_mem_of_some s1.dats key h hlook
      have hnd1 : (list s1).Nodup := by
        rw [← hs]
        exact hnd
      exact List.count_eq_one_of_mem hnd1 hmem
    · intro k
      rw [hmain]
      simp
  | none =>
    rw [hl] at hadd
    cases ho : env.openArchive key with
    | error e =>
      rw [ho] at hadd
      simp at hadd
    | ok dat =>
      rw [ho] at hadd
      simp only [Prod.mk.injEq, Except.ok.injEq] at hadd
      obtain ⟨hdat, hs, _⟩ := hadd
      have hlook : lookupKey s1.dats key = some h := by
        rw [← hs]
        show lookupKey (s.dats ++ [(key, dat)]) key = some h
        rw [lookupKey_append_none s.dats [(key, dat)] key hl]
        simp [lookupKey, hdat]
      have hmain : add env s1 link2 = (Except.ok h, s1, [Action.addCall link2]) := by
        simp [add, h2, hlook]
      refine ⟨hmain, ?_, ?_⟩
      · have hnotin : key ∉ list s := (lookupKey_eq_none_iff s.dats key).mp hl
        have hlist : list s1 = list s ++ [key] := by
          rw [← hs]
          simp [list]
        rw [hlist, List.count_append]
        rw [List.count_eq_zero.mpr hnotin]
        simp
      · intro k
        rw [hmain]
        simp

/-- Witness for C1 at concrete inputs: add the same archive through
two different links resolving to the same key. -/
theorem add_idempotent_witness :
    add envOk { dats := [(K0, 7)], fsDirs := [K0] } "dat://garbados.hashbase.io" =
      (Except.ok 7, { dats := [(K0, 7)], fsDirs := [K0] },
       [Action.addCall "dat://garbados.hashbase.io"]) ∧
    (list ({ dats := [(K0, 7)], fsDirs := [K0] } : LibState Nat)).count K0 = 1 ∧
    ∀ k, Action.openArchive k ∉
      (add envOk { dats := [(K0, 7)], fsDirs := [K0] } "dat://garbados.hashbase.io").2.2 :=
  add_idempotent envOk st0 "garbados.hashbase.io" "dat://garbados.hashbase.io" K0 7
    { dats := [(K0, 7)], fsDirs := [K0] }
    [Action.addCall "garbados.hashbase.io", Action.openArchive K0, Action.store K0,
     Action.joinNetwork K0, Action.emitAdd K0]
    (by decide) rfl rfl rfl

/-- C3: a successful remove closes the handle, then evicts the key
from the cache, then deletes the directory of the key, in that order;
afterwards list() no longer contains the key, the directory is gone,
and the remove notification carries the original link. -/
theorem remove_success (env : Env H) (s : LibState H) (link key : String) (dat : H)
    (hres : env.resolve link = Except.ok key)
    (hl : lookupKey s.dats key = some dat)
    (hc : env.closeResult dat = none)
    (hr : env.rimrafResult key = none) :
    (remove env s link).1 = Except.ok () ∧
    (remove env s link).2.2 =
      [Action.closeHandle key, Action.evict key, Action.deleteDir key,
       Action.emitRemove link] ∧
    key ∉ list (remove env s link).2.1 ∧
    key ∉ (remove env s link).2.1.fsDirs ∧
    precedesIn (remove env s link).2.2 (Action.closeHandle key) (Action.evict key) ∧
    precedesIn (remove env s link).2.2 (Action.evict key) (Action.deleteDir key) ∧
    Action.emitRemove link ∈ (remove env s link).2.2 := by
  have hrm : remove env s link =
      (Except.ok (),
       { s with dats := eraseKey s.dats key,
                fsDirs := s.fsDirs.filter (fun d => d != key) },
       [Action.closeHandle key, Action.evict key, Action.deleteDir key,
        Action.emitRemove link]) := by
    simp [remove, hres, hl, hc, hr]
  rw [hrm]
  refine ⟨rfl, rfl, ?_, ?_, ?_, ?_, ?_⟩
  · show key ∉ (eraseKey s.dats key).map Prod.fst
    exact eraseKey_not_mem s.dats key
  · exact filter_ne_not_mem s.fsDirs key
  · exact precedesIn_head _ _ _ (by simp)
  · exact precedesIn_cons _ _ _ _ (precedesIn_head _ _ _ (by simp))
  · simp

/-- Witness for C3 at concrete inputs: removing the documented link
from a librarian caching its key. -/
theorem remove_success_witness :
    (remove envOk st1 "garbados.hashbase.io").1 = Except.ok () ∧
    (remove envOk st1 "garbados.hashbase.io").2.2 =
      [Action.closeHandle K0, Action.evict K0, Action.deleteDir K0,
       Action.emitRemove "garbados.hashbase.io"] ∧
    K0 ∉ list (remove envOk st1 "garbados.hashbase.io").2.1 ∧
    K0 ∉ (remove envOk st1 "garbados.hashbase.io").2.1.fsDirs ∧
    precedesIn (remove envOk st1 "garbados.hashbase.io").2.2
      (Action.closeHandle K0) (Action.evict K0) ∧
    precedesIn (remove envOk st1 "garbados.hashbase.io").2.2
      (Action.evict K0) (Action.deleteDir K0) ∧
    Action.emitRemove "garbados.hashbase.io" ∈
      (remove envOk st1 "garbados.hashbase.io").2.2 :=
  remove_success envOk st1 "garbados.hashbase.io" K0 7 rfl rfl rfl rfl

/-- C4: under the resolver contract that every cached key resolves to
itself, a link that resolves to a key with no cached handle makes get
fail with the distinct "not found" error, and makes remove fail with
the same error while leaving the state, in particular list(),
unchanged and performing no action. -/
theorem get_remove_not_found (env : Env H) (s : LibState H) (link key : String)
    (hself : ∀ p ∈ s.dats, env.resolve p.1 = Except.ok p.1)
    (hres : env.resolve link = Except.ok key)
    (hmiss : lookupKey s.dats key = none) :
    get env s link = Except.error "not found" ∧
    remove env s link = (Except.error "not found", s, []) := by
  have hlink : lookupKey s.dats link = none := by
    cases hll : lookupKey s.dats link with
    | none => rfl
    | some hv =>
      exfalso
      have hmem := lookupKey_mem_of_some s.dats link hv hll
      rcases List.mem_map.mp hmem with ⟨p, hp, hfst⟩
      have hrp := hself p hp
      rw [hfst, hres] at hrp
      have hkey : key = link := Except.ok.inj hrp
      rw [← hkey] at hll
      rw [hmiss] at hll
      exact Option.noConfusion hll
  constructor
  · simp [get, hlink, hres, hmiss]
  · simp [remove, hres, hmiss]

/-- Witness for C4 at concrete inputs: a never-added link resolving
to the uncached key K1 while K0 is cached. -/
theorem get_remove_not_found_witness :
    get envOk st1 "pfrazee.hashbase.io" = Except.error "not found" ∧
    remove envOk st1 "pfrazee.hashbase.io" = (Except.error "not found", st1, []) :=
  get_remove_not_found envOk st1 "pfrazee.hashbase.io" K1
    (by
      intro p hp
      have hsp : p = (K0, 7) := by
        simpa [st1] using hp
      rw [hsp]
      rfl)
    rfl rfl

/-- Environment whose handle close callback reports an error. -/
def envCloseFail : Env Nat where
  resolve := fun l =>
    if l = "garbados.hashbase.io" then Except.ok K0
    else if l = K0 then Except.ok K0
    else Except.error "bad link"
  openArchive := fun _ => Except.ok 7
  closeResult := fun _ => some "close failed"
  rimrafResult := fun _ => none

/-- Environment whose directory deletion reports an error. -/
def envRimrafFail : Env Nat where
  resolve := fun l =>
    if l = "garbados.hashbase.io" then Except.ok K0
    else if l = K0 then Except.ok K0
    else Except.error "bad link"
  openArchive := fun _ => Except.ok 7
  closeResult := fun _ => none
  rimrafResult := fun _ => some "rimraf failed"

/-- Counterexample to C6 as stated: on a fresh successful add the
add notification is emitted after joinNetwork is initiated, not
before it. The full trace is shown; emitAdd does not precede
joinNetwork in it. -/
theorem add_emit_before_join_counterexample :
    (add envOk st0 "garbados.hashbase.io").2.2 =
      [Action.addCall "garbados.hashbase.io", Action.openArchive K0, Action.store K0,
       Action.joinNetwork K0, Action.emitAdd K0] ∧
    ¬ precedesIn (add envOk st0 "garbados.hashbase.io").2.2
        (Action.emitAdd K0) (Action.joinNetwork K0) :=
  ⟨rfl, by decide⟩

/-- C6 as amended: on every fresh successful add the add notification
is emitted after the handle is stored in the cache and after network
participation is initiated; the store also precedes the joinNetwork
call, and the trace is exactly store, then joinNetwork, then emit. -/
theorem add_store_join_emit_order (env : Env H) (s : LibState H) (link key : String)
    (dat : H)
    (hres : env.resolve link = Except.ok key)
    (hmiss : lookupKey s.dats key = none)
    (hopen : env.openArchive key = Except.ok dat) :
    (add env s link).2.2 =
      [Action.addCall link, Action.openArchive key, Action.store key,
       Action.joinNetwork key, Action.emitAdd key] ∧
    precedesIn (add env s link).2.2 (Action.store key) (Action.joinNetwork key) ∧
    precedesIn (add env s link).2.2 (Action.joinNetwork key) (Action.emitAdd key) ∧
    precedesIn (add env s link).2.2 (Action.store key) (Action.emitAdd key) := by
  have htr : (add env s link).2.2 =
      [Action.addCall link, Action.openArchive key, Action.store key,
       Action.joinNetwork key, Action.emitAdd key] := by
    simp [add, hres, hmiss, hopen]
  rw [htr]
  refine ⟨rfl, ?_, ?_, ?_⟩
  · exact precedesIn_cons _ _ _ _ (precedesIn_cons _ _ _ _
      (precedesIn_head _ _ _ (by simp)))
  · exact precedesIn_cons _ _ _ _ (precedesIn_cons _ _ _ _
      (precedesIn_cons _ _ _ _ (precedesIn_head _ _ _ (by simp))))
  · exact precedesIn_cons _ _ _ _ (precedesIn_cons _ _ _ _
      (precedesIn_head _ _ _ (by simp)))

/-- Witness for the amended C6 at concrete inputs. -/
theorem add_store_join_emit_order_witness :
    (add envOk st0 "garbados.hashbase.io").2.2 =
      [Action.addCall "garbados.hashbase.io", Action.openArchive K0, Action.store K0,
       Action.joinNetwork K0, Action.emitAdd K0] ∧
    precedesIn (add envOk st0 "garbados.hashbase.io").2.2
      (Action.store K0) (Action.joinNetwork K0) ∧
    precedesIn (add envOk st0 "garbados.hashbase.io").2.2
      (Action.joinNetwork K0) (Action.emitAdd K0) ∧
    precedesIn (add envOk st0 "garbados.hashbase.io").2.2
      (Action.store K0) (Action.emitAdd K0) :=
  add_store_join_emit_order envOk st0 "garbados.hashbase.io" K0 7 rfl rfl rfl

/-- Counterexample to C7 as stated: when closing the handle fails
during remove, the error surfaces while the cache entry is still
present; the state is unchanged, so the key has not been evicted. -/
theorem remove_close_failure_counterexample :
    (remove envCloseFail st1 "garbados.hashbase.io").1 = Except.error "close failed" ∧
    K0 ∈ list (remove envCloseFail st1 "garbados.hashbase.io").2.1 ∧
    (remove envCloseFail st1 "garbados.hashbase.io").2.1 = st1 :=
  ⟨rfl, by decide, rfl⟩

/-- C7 as amended: on a close failure during remove the cache entry
has not been evicted and the state is unchanged; it is on a directory
deletion failure, after a successful close, that the entry has
already been evicted and is not restored. -/
theorem remove_failure_eviction (env : Env H) (s : LibState H) (link key : String)
    (dat : H)
    (hres : env.resolve link = Except.ok key)
    (hl : lookupKey s.dats key = some dat) :
    (∀ e, env.closeResult dat = some e →
      remove env s link = (Except.error e, s, [Action.closeFailed key])) ∧
    (∀ e, env.closeResult dat = none → env.rimrafResult key = some e →
      remove env s link =
        (Except.error e, { s with dats := eraseKey s.dats key },
         [Action.closeHandle key, Action.evict key]) ∧
      key ∉ list (remove env s link).2.1) := by
  constructor
  · intro e he
    simp [remove, hres, hl, he]
  · intro e hc hr
    have hrm : remove env s link =
        (Except.error e, { s with dats := eraseKey s.dats key },
         [Action.closeHandle key, Action.evict key]) := by
      simp [remove, hres, hl, hc, hr]
    refine ⟨hrm, ?_⟩
    rw [hrm]
    show key ∉ (eraseKey s.dats key).map Prod.fst
    exact eraseKey_not_mem s.dats key

/-- Witness for the amended C7 at concrete inputs: a failing close
leaves the entry cached; a failing rimraf leaves it evicted. -/
theorem remove_failure_eviction_witness :
    remove envCloseFail st1 "garbados.hashbase.io" =
      (Except.error "close failed", st1, [Action.closeFailed K0]) ∧
    (remove envRimrafFail st1 "garbados.hashbase.io" =
      (Except.error "rimraf failed", { dats := [], fsDirs := [K0] },
       [Action.closeHandle K0, Action.evict K0]) ∧
      K0 ∉ list (remove envRimrafFail st1 "garbados.hashbase.io").2.1) :=
  ⟨(remove_failure_eviction envCloseFail st1 "garbados.hashbase.io" K0 7 rfl rfl).1
      "close failed" rfl,
   (remove_failure_eviction envRimrafFail st1 "garbados.hashbase.io" K0 7 rfl rfl).2
      "rimraf failed" rfl rfl⟩

/-- Counterexample to C8 as stated: a cached handle whose close
callback reports an error, yet close() resolves successfully; the
error is swallowed, not propagated. -/
theorem close_error_propagates_counterexample :
    envCloseFail.closeResult 7 = some "close failed" ∧
    (close envCloseFail st1).1 = Except.ok () ∧
    Action.closeFailed K0 ∈ (close envCloseFail st1).2.2 :=
  ⟨rfl, rfl, by decide⟩

/-- C8 as amended: close() never rejects; it resolves successfully
and leaves the state unchanged even when closing some cached handle
fails, recording the failed close without propagating it. -/
theorem closeGo_mem_of_failed (env : Env H) (p : String × H) (e : String)
    (he : env.closeResult p.2 = some e) :
    ∀ dats : List (String × H), p ∈ dats →
      Action.closeFailed p.1 ∈ closeGo env dats := by
  intro dats
  induction dats with
  | nil =>
    intro hp
    cases hp
  | cons q rest ih =>
    intro hp
    obtain ⟨k, h⟩ := q
    rcases List.mem_cons.mp hp with hq | hq
    · subst hq
      simp only [closeGo]
      rw [he]
      exact List.mem_cons_self _ _
    · cases hc : env.closeResult h with
      | some e2 =>
        simp only [closeGo]
        rw [hc]
        exact List.mem_cons_of_mem _ (ih hq)
      | none =>
        simp only [closeGo]
        rw [hc]
        exact List.mem_cons_of_mem _ (ih hq)

theorem close_swallows_errors (env : Env H) (s : LibState H) :
    (close env s).1 = Except.ok () ∧
    (close env s).2.1 = s ∧
    ∀ p ∈ s.dats, ∀ e, env.closeResult p.2 = some e →
      Action.closeFailed p.1 ∈ (close env s).2.2 := by
  refine ⟨rfl, rfl, ?_⟩
  intro p hp e he
  exact closeGo_mem_of_failed env p e he s.dats hp

/-- Witness for the amended C8 at concrete inputs. -/
theorem close_swallows_errors_witness :
    (close envCloseFail st1).1 = Except.ok () ∧
    (close envCloseFail st1).2.1 = st1 ∧
    ∀ p ∈ st1.dats, ∀ e, envCloseFail.closeResult p.2 = some e →
      Action.closeFailed p.1 ∈ (close envCloseFail st1).2.2 :=
  close_swallows_errors envCloseFail st1

/-! Trace bookkeeping for load. -/

theorem loadTrace_addCalls (names : List String) :
    (loadTrace names).filterMap addCallOf = names := by
  induction names with
  | nil => rfl
  | cons n rest ih =>
    simp only [loadTrace, addTrace, List.filterMap_append, List.filterMap_cons]
    simp [addCallOf, ih]

theorem addCallOf_eq_some (a : Action) (n : String) (h : addCallOf a = some n) :
    a = Action.addCall n := by
  cases a <;> simp_all [addCallOf]

theorem loadTrace_mem_addCall (names : List String) (n : String)
    (h : Action.addCall n ∈ loadTrace names) : n ∈ names := by
  have : n ∈ (loadTrace names).filterMap addCallOf :=
    List.mem_filterMap.mpr ⟨Action.addCall n, h, rfl⟩
  rwa [loadTrace_addCalls] at this

/-- Environment for the load fixtures: every link resolves to itself
and every open succeeds. -/
def envLoad : Env Nat where
  resolve := fun l => Except.ok l
  openArchive := fun _ => Except.ok 7
  closeResult := fun _ => none
  rimrafResult := fun _ => none

/-- Uppercase spelling of a 64-character hex key. -/
def KU : String := "C33BC8D7C32A6E905905EFDBF21EFEA9FF23B00D1C3EE9AEA80092EABA6C4957"

/-- A directory name with a 64-character hex prefix and a suffix. -/
def KJ : String := "c33bc8d7c32a6e905905efdbf21efea9ff23b00d1c3ee9aea80092eaba6c4957.bak"

/-- Working directory holding three matching entries (a lowercase
key, an uppercase key, a key with a trailing suffix) and two entries
that do not match the key format. -/
def stDirs : LibState Nat where
  dats := []
  fsDirs := [K0, KU, KJ, "readme.txt", "0123"]

/-- C5: starting from an empty cache, when every matching entry of
the working directory resolves to itself and opens successfully,
load() succeeds and populates the cache with exactly the entries
matching the key format; list() equals that filtered list, its length
equals the count of matching entries, and non-matching entries are
ignored. -/
theorem load_roundtrip (env : Env H) (f : String → H) (s : LibState H)
    (hempty : s.dats = [])
    (hres : ∀ n ∈ s.fsDirs.filter datKeyTest, env.resolve n = Except.ok n)
    (hopen : ∀ n ∈ s.fsDirs.filter datKeyTest, env.openArchive n = Except.ok (f n))
    (hnd : s.fsDirs.Nodup) :
    (load env s).1 = Except.ok () ∧
    list (load env s).2.1 = s.fsDirs.filter datKeyTest ∧
    (list (load env s).2.1).length = (s.fsDirs.filter datKeyTest).length ∧
    ∀ n ∈ s.fsDirs, datKeyTest n = false → n ∉ list (load env s).2.1 := by
  have hgo := loadGo_spec env f (s.fsDirs.filter datKeyTest) s hres hopen
    (List.Nodup.filter datKeyTest hnd)
    (fun n _ => by rw [hempty]; rfl)
    (fun n hn => List.mem_of_mem_filter hn)
  have hload : load env s =
      (Except.ok (),
       { s with dats :=
          s.dats ++ (s.fsDirs.filter datKeyTest).map (fun n => (n, f n)) },
       loadTrace (s.fsDirs.filter datKeyTest)) := by
    unfold load
    exact hgo
  have hlist : list (load env s).2.1 = s.fsDirs.filter datKeyTest := by
    rw [hload]
    simp [list, hempty, List.map_map, Function.comp_def]
  refine ⟨by rw [hload], hlist, by rw [hlist], ?_⟩
  intro n _ hfalse hmem
  rw [hlist] at hmem
  have := (List.mem_filter.mp hmem).2
  rw [hfalse] at this
  exact Bool.noConfusion this

/-- Witness for C5 at concrete inputs: a directory with three
matching and two non-matching entries. -/
theorem load_roundtrip_witness :
    (load envLoad stDirs).1 = Except.ok () ∧
    list (load envLoad stDirs).2.1 = stDirs.fsDirs.filter datKeyTest ∧
    (list (load envLoad stDirs).2.1).length =
      (stDirs.fsDirs.filter datKeyTest).length ∧
    ∀ n ∈ stDirs.fsDirs, datKeyTest n = false →
      n ∉ list (load envLoad stDirs).2.1 :=
  load_roundtrip envLoad (fun _ => 7) stDirs rfl (fun _ _ => rfl) (fun _ _ => rfl)
    (by decide)

/-- C10: the load filter is a case-insensitive 64-hex-digit prefix
match. The links passed to add are exactly the full entry names whose
test succeeds; an entry whose test fails is never passed to add; an
entry whose test succeeds is passed to add under its full name; and
the test succeeds exactly on names of length at least 64 whose first
64 characters are hex digits of either case. -/
theorem load_filter_prefix_match (env : Env H) (f : String → H) (s : LibState H)
    (hempty : s.dats = [])
    (hres : ∀ n ∈ s.fsDirs.filter datKeyTest, env.resolve n = Except.ok n)
    (hopen : ∀ n ∈ s.fsDirs.filter datKeyTest, env.openArchive n = Except.ok (f n))
    (hnd : s.fsDirs.Nodup) :
    ((load env s).2.2).filterMap addCallOf = s.fsDirs.filter datKeyTest ∧
    (∀ n ∈ s.fsDirs, datKeyTest n = true → Action.addCall n ∈ (load env s).2.2) ∧
    (∀ n ∈ s.fsDirs, datKeyTest n = false → Action.addCall n ∉ (load env s).2.2) ∧
    ∀ str : String, datKeyTest str = true ↔
      (64 ≤ str.length ∧ ∀ c ∈ str.toList.take 64, c ∈ hexChars) := by
  have hgo := loadGo_spec env f (s.fsDirs.filter datKeyTest) s hres hopen
    (List.Nodup.filter datKeyTest hnd)
    (fun n _ => by rw [hempty]; rfl)
    (fun n hn => List.mem_of_mem_filter hn)
  have htr : (load env s).2.2 = loadTrace (s.fsDirs.filter datKeyTest) := by
    unfold load
    rw [hgo]
  refine ⟨?_, ?_, ?_, datKeyTest_iff⟩
  · rw [htr]
    exact loadTrace_addCalls (s.fsDirs.filter datKeyTest)
  · intro n hn htrue
    rw [htr]
    have hmem : n ∈ s.fsDirs.filter datKeyTest :=
      List.mem_filter.mpr ⟨hn, htrue⟩
    rw [← loadTrace_addCalls (s.fsDirs.filter datKeyTest)] at hmem
    rcases List.mem_filterMap.mp hmem with ⟨a, ha, hsome⟩
    rw [addCallOf_eq_some a n hsome] at ha
    exact ha
  · intro n _ hfalse hmem
    rw [htr] at hmem
    have hin := loadTrace_mem_addCall (s.fsDirs.filter datKeyTest) n hmem
    have := (List.mem_filter.mp hin).2
    rw [hfalse] at this
    exact Bool.noConfusion this

/-- Witness for C10 at concrete inputs: the uppercase entry and the
suffixed entry are passed to add under their full names, the
non-matching entries are not. -/
theorem load_filter_prefix_match_witness :
    ((load envLoad stDirs).2.2).filterMap addCallOf =
      stDirs.fsDirs.filter datKeyTest ∧
    (∀ n ∈ stDirs.fsDirs, datKeyTest n = true →
      Action.addCall n ∈ (load envLoad stDirs).2.2) ∧
    (∀ n ∈ stDirs.fsDirs, datKeyTest n = false →
      Action.addCall n ∉ (load envLoad stDirs).2.2) ∧
    ∀ str : String, datKeyTest str = true ↔
      (64 ≤ str.length ∧ ∀ c ∈ str.toList.take 64, c ∈ hexChars) :=
  load_filter_prefix_match envLoad (fun _ => 7) stDirs rfl (fun _ _ => rfl)
    (fun _ _ => rfl) (by decide)

end DatLibrarian
